import Mathlib

/-!
Verification of the `shmq` circular buffer (`src/shmq/circular_buffer.py`).

The buffer lives in a raw memory region: a 12-byte header of three
little-endian `uint32` fields (`read_index`, `write_index`, `max_size`)
followed by a payload region of `max_size` bytes addressed circularly.
We embed a buffer state as a record of the three header fields (as `Nat`,
with the `uint32` truncation made explicit at the one store that can
overflow) together with the payload region as a function from offsets to
byte values.

The query methods (`full`, `empty`, `capacity`, `size`), `reset` and
construction are translated directly from the source.  The bodies of
`put` and `get` are ellipsis stubs in the source, and `available_size`
and the exception classes are absent from it altogether (only the tests
and the spec describe them); those operations are modelled from the
spec, as marked on each definition.
-/

namespace Shmq

/-- Size in bytes of `CircularBufferHeader` (three `uint32` fields). -/
def HEADER_SIZE : Nat := 12

/-- Size in bytes of the per-item length field (`uint32`). -/
def ITEM_PREFIX_SIZE : Nat := 4

/-- Minimum backing-region length: a header plus one payload byte. -/
def MIN_BUFFER_SIZE : Nat := HEADER_SIZE + 1

/-- Modulus of a `uint32` header field. -/
def U32_MOD : Nat := 2 ^ 32

/-- Modelled from the spec: the exception classes live in `shmq/exceptions.py`,
which is not part of the sources (only the import and the spec's §7 describe
them). -/
inductive ShmqError where
  | insufficientBufferSize
  | insufficientSpace
  | empty
deriving DecidableEq, Repr

/-- A circular-buffer state: the three header fields plus the payload region
(`mem o` is the byte stored at payload offset `o`). -/
structure CircularBuffer where
  read_index : Nat
  write_index : Nat
  max_size : Nat
  mem : Nat → Nat

/-- Read `n` payload bytes starting at offset `st`, each access taken modulo
`M` (the circular addressing of the payload region). -/
def readBytes (M : Nat) (mem : Nat → Nat) (st : Nat) : Nat → List Nat
  | 0 => []
  | n + 1 => mem (st % M) :: readBytes M mem (st + 1) n

/-- Write the bytes `bs` starting at offset `st`, each store taken modulo `M`. -/
def writeMem (M : Nat) (mem : Nat → Nat) (st : Nat) : List Nat → (Nat → Nat)
  | [] => mem
  | b :: bs => writeMem M (fun p => if p = st % M then b else mem p) (st + 1) bs

/-- Modelled from the spec: 4-byte little-endian encoding of an item's length
(the framing of §3; the `put` body that would write it is a stub in the
source). -/
def encodeLen (n : Nat) : List Nat :=
  [n % 256, n / 256 % 256, n / 256 / 256 % 256, n / 256 / 256 / 256 % 256]

/-- Modelled from the spec: decoding of the 4-byte little-endian length
prefix read back from the payload region. -/
def decodeLen : List Nat → Nat
  | [a, b, c, d] => a + 256 * (b + 256 * (c + 256 * d))
  | _ => 0

/-- A stored frame: the 4-byte length field followed by the item's bytes. -/
def frameBytes (item : List Nat) : List Nat := encodeLen item.length ++ item

namespace CircularBuffer

/-- `CircularBuffer.full` from the source:
`((write_index + 1) % max_size) == read_index`. -/
def full (s : CircularBuffer) : Bool :=
  (s.write_index + 1) % s.max_size == s.read_index

/-- `CircularBuffer.empty` from the source: `read_index == write_index`. -/
def empty (s : CircularBuffer) : Bool :=
  s.read_index == s.write_index

/-- `CircularBuffer.capacity` from the source: `max_size - 1`. -/
def capacity (s : CircularBuffer) : Nat :=
  s.max_size - 1

/-- `CircularBuffer.size` from the source.  Note that the wrapped branch
returns `max_size + read_index - write_index`, exactly as the source does. -/
def size (s : CircularBuffer) : Nat :=
  if !s.full then
    if s.write_index ≥ s.read_index then
      s.write_index - s.read_index
    else
      s.max_size + s.read_index - s.write_index
  else
    s.capacity

/-- `CircularBuffer.reset` from the source: both indices are set to 0. -/
def reset (s : CircularBuffer) : CircularBuffer :=
  { s with read_index := 0, write_index := 0 }

/-- `CircularBuffer.__init__` from the source, over a region of length `L`
whose current contents (header fields and payload) are `s`: raise
`InsufficientBufferSize` when `L < MIN_BUFFER_SIZE`; otherwise, if the
`max_size` field reads 0, store `L - HEADER_SIZE` into it (a `c_uint32`
store, hence the `% U32_MOD`); otherwise leave everything as found. -/
def init (L : Nat) (s : CircularBuffer) : Except ShmqError CircularBuffer :=
  if L < MIN_BUFFER_SIZE then
    .error .insufficientBufferSize
  else if s.max_size = 0 then
    .ok { s with max_size := (L - HEADER_SIZE) % U32_MOD }
  else
    .ok s

/-- Modelled from the spec: the spec's §4.2 formula for `size()` (wrapped
case `max_size − read_index + write_index`), used by the spec's §4.3 `put`
to compute free space; stated separately from the source's `size` so the
two can be compared. -/
def specSize (s : CircularBuffer) : Nat :=
  if !s.full then
    if s.write_index ≥ s.read_index then
      s.write_index - s.read_index
    else
      s.max_size - s.read_index + s.write_index
  else
    s.capacity

/-- Modelled from the spec: `available_size` does not appear in the source
(only the tests call it); §4.2 defines it as
`capacity() − size() − ITEM_PREFIX_SIZE`. -/
def available_size (s : CircularBuffer) : Nat :=
  s.capacity - s.size - ITEM_PREFIX_SIZE

/-- Modelled from the spec: the length field stored at offset `i` of the
payload region, read back through the circular addressing (§4.4). -/
def readLenAt (s : CircularBuffer) (i : Nat) : Nat :=
  decodeLen (readBytes s.max_size s.mem i ITEM_PREFIX_SIZE)

/-- Modelled from the spec: advance `read_index` past one complete stored
item (its length field plus that many payload bytes), as §4.3's eviction
and §4.4's `get` both do. -/
def evictOne (s : CircularBuffer) : CircularBuffer :=
  { s with
    read_index :=
      (s.read_index + ITEM_PREFIX_SIZE + s.readLenAt s.read_index) % s.max_size }

/-- Modelled from the spec: the `get` body is an ellipsis stub in the source;
§4.4: fail with `Empty` when `read_index == write_index`, else read the
length field at `read_index`, read that many payload bytes, advance
`read_index` past them modulo `max_size`, and return the bytes. -/
def get (s : CircularBuffer) : Except ShmqError (List Nat) × CircularBuffer :=
  if s.read_index = s.write_index then
    (.error .empty, s)
  else
    (.ok (readBytes s.max_size s.mem (s.read_index + ITEM_PREFIX_SIZE)
            (s.readLenAt s.read_index)),
     s.evictOne)

/-- Modelled from the spec: §4.3's eviction loop — while the free space
`capacity() − size()` is smaller than `need`, discard the oldest stored
item.  The loop of the spec is given explicit fuel to make it total;
`put` passes `max_size`, which exceeds the number of stored items of any
well-formed state. -/
def evictLoop (need : Nat) : Nat → CircularBuffer → CircularBuffer
  | 0, s => s
  | fuel + 1, s =>
    if need ≤ s.capacity - s.specSize then s
    else evictLoop need fuel s.evictOne

/-- Modelled from the spec: §4.3's write step — serialize the 4-byte length
then the raw bytes starting at `write_index` (wrapping), and set
`write_index` to the offset just past them modulo `max_size`. -/
def writeFrame (s : CircularBuffer) (item : List Nat) : CircularBuffer :=
  { s with
    mem := writeMem s.max_size s.mem s.write_index (frameBytes item),
    write_index := (s.write_index + (item.length + ITEM_PREFIX_SIZE)) % s.max_size }

/-- Modelled from the spec: the `put` body is an ellipsis stub in the source;
§4.3: reject with `InsufficientSpace` an item whose framed size exceeds
`capacity()` (leaving the state untouched), otherwise evict oldest items
until the frame fits and write it. -/
def put (s : CircularBuffer) (item : List Nat) :
    Except ShmqError Unit × CircularBuffer :=
  if s.capacity < item.length + ITEM_PREFIX_SIZE then
    (.error .insufficientSpace, s)
  else
    (.ok (), (evictLoop (item.length + ITEM_PREFIX_SIZE) s.max_size s).writeFrame item)

/-- Run a sequence of `put` calls, stopping at the first error. -/
def putAll (s : CircularBuffer) : List (List Nat) → Except ShmqError CircularBuffer
  | [] => .ok s
  | item :: rest =>
    match s.put item with
    | (.ok _, s') => putAll s' rest
    | (.error e, _) => .error e

/-- Run `k` successive `get` calls, collecting the returned items. -/
def getAll (s : CircularBuffer) : Nat → Except ShmqError (List (List Nat))
  | 0 => .ok []
  | k + 1 =>
    match s.get with
    | (.ok item, s') => (getAll s' k).map (item :: ·)
    | (.error e, _) => .error e

/-- State-passing embedding of the source's `full` method: it performs no
assignment, so it returns the state exactly as received. -/
def fullM (s : CircularBuffer) : Bool × CircularBuffer := (s.full, s)

/-- State-passing embedding of the source's `empty` method (no assignment). -/
def emptyM (s : CircularBuffer) : Bool × CircularBuffer := (s.empty, s)

/-- State-passing embedding of the source's `capacity` method (no assignment). -/
def capacityM (s : CircularBuffer) : Nat × CircularBuffer := (s.capacity, s)

/-- State-passing embedding of the source's `size` method (no assignment). -/
def sizeM (s : CircularBuffer) : Nat × CircularBuffer := (s.size, s)

end CircularBuffer

/-- A fresh (never-initialized) memory region: header fields and payload all
zero. -/
def freshRegion : CircularBuffer :=
  { read_index := 0, write_index := 0, max_size := 0, mem := fun _ => 0 }

/-- The state produced by the first construction over a fresh region of
length `L`. -/
def freshBuf (L : Nat) : CircularBuffer :=
  { read_index := 0, write_index := 0,
    max_size := (L - HEADER_SIZE) % U32_MOD, mem := fun _ => 0 }

/-- Total framed length of a queue of items (each item costs its length
plus the 4-byte length field). -/
def totalFramed : List (List Nat) → Nat
  | [] => 0
  | item :: q => (item.length + ITEM_PREFIX_SIZE) + totalFramed q

/-- The byte image of a queue of items: the concatenation of their frames. -/
def queueBytes : List (List Nat) → List Nat
  | [] => []
  | item :: q => frameBytes item ++ queueBytes q

/-- The buffer state `s` stores exactly the queue `q` (oldest first): the
header fields satisfy the index invariant, the queue fits, `write_index`
sits `totalFramed q` bytes past `read_index` on the ring, and the payload
bytes from `read_index` onward spell out the frames of `q`. -/
def Represents (s : CircularBuffer) (q : List (List Nat)) : Prop :=
  1 ≤ s.max_size ∧ s.max_size < U32_MOD ∧
  s.read_index < s.max_size ∧ s.write_index < s.max_size ∧
  totalFramed q ≤ s.capacity ∧
  s.write_index = (s.read_index + totalFramed q) % s.max_size ∧
  readBytes s.max_size s.mem s.read_index (totalFramed q) = queueBytes q

instance (s : CircularBuffer) (q : List (List Nat)) : Decidable (Represents s q) := by
  unfold Represents
  exact inferInstance

end Shmq

namespace Shmq

/-! ### Arithmetic helpers for circular addressing -/

theorem add_mod_inj {M st i j : Nat} (hi : i < M) (hj : j < M)
    (h : (st + i) % M = (st + j) % M) : i = j := by
  have h' : i ≡ j [MOD M] :=
    Nat.ModEq.add_left_cancel (Nat.ModEq.refl st) h
  have h'' : i % M = j % M := h'
  rwa [Nat.mod_eq_of_lt hi, Nat.mod_eq_of_lt hj] at h''

theorem mod_two_cases {a M : Nat} (h : a < 2 * M) :
    a % M = if a < M then a else a - M := by
  by_cases hlt : a < M
  · rw [if_pos hlt, Nat.mod_eq_of_lt hlt]
  · rw [if_neg hlt, Nat.mod_eq_sub_mod (Nat.le_of_not_lt hlt),
      Nat.mod_eq_of_lt (by omega)]

/-! ### Reading and writing the circular payload region -/

@[simp] theorem readBytes_length (M : Nat) (mem : Nat → Nat) (st n : Nat) :
    (readBytes M mem st n).length = n := by
  induction n generalizing st with
  | zero => rfl
  | succ n ih => simp [readBytes, ih]

theorem readBytes_start_congr {M : Nat} (mem : Nat → Nat) {st₁ st₂ : Nat}
    (h : st₁ % M = st₂ % M) (n : Nat) :
    readBytes M mem st₁ n = readBytes M mem st₂ n := by
  induction n generalizing st₁ st₂ with
  | zero => rfl
  | succ n ih =>
    simp only [readBytes, h]
    refine congrArg _ (ih ?_)
    rw [← Nat.mod_add_mod, h, Nat.mod_add_mod]

theorem readBytes_mem_congr {M st n : Nat} {mem₁ mem₂ : Nat → Nat}
    (h : ∀ i < n, mem₁ ((st + i) % M) = mem₂ ((st + i) % M)) :
    readBytes M mem₁ st n = readBytes M mem₂ st n := by
  induction n generalizing st with
  | zero => rfl
  | succ n ih =>
    simp only [readBytes]
    refine congrArg₂ _ ?_ (ih fun i hi => ?_)
    · have := h 0 (Nat.succ_pos n)
      simpa using this
    · have := h (1 + i) (by omega)
      rwa [← Nat.add_assoc] at this

theorem readBytes_add (M : Nat) (mem : Nat → Nat) (st a b : Nat) :
    readBytes M mem st (a + b) = readBytes M mem st a ++ readBytes M mem (st + a) b := by
  induction a generalizing st with
  | zero => simp [readBytes]
  | succ a ih =>
    have : a + 1 + b = (a + b) + 1 := by omega
    rw [this]
    simp only [readBytes, ih (st + 1), List.cons_append]
    have : st + 1 + a = st + (a + 1) := by omega
    rw [this]

theorem writeMem_out {M : Nat} {bs : List Nat} {st p : Nat} (mem : Nat → Nat)
    (h : ∀ i < bs.length, p ≠ (st + i) % M) :
    writeMem M mem st bs p = mem p := by
  induction bs generalizing mem st with
  | nil => rfl
  | cons b bs ih =>
    simp only [writeMem]
    rw [ih _ fun i hi => ?_]
    · have h0 := h 0 (by simp)
      simp only [Nat.add_zero] at h0
      simp [h0]
    · have := h (1 + i) (by simp; omega)
      rwa [← Nat.add_assoc] at this

theorem readBytes_writeMem_self {M : Nat} {bs : List Nat} (mem : Nat → Nat)
    (st : Nat) (hM : 0 < M) (hlen : bs.length ≤ M) :
    readBytes M (writeMem M mem st bs) st bs.length = bs := by
  induction bs generalizing mem st with
  | nil => rfl
  | cons b bs ih =>
    simp only [writeMem, List.length_cons, readBytes]
    refine congrArg₂ _ ?_ (ih _ (st + 1) (by simpa using Nat.le_of_succ_le hlen))
    rw [writeMem_out _ fun i hi => ?_]
    · simp
    · intro hcontra
      have hL : bs.length + 1 ≤ M := by simpa using hlen
      have heq : st + 1 + i = st + (1 + i) := by omega
      rw [heq] at hcontra
      have h01 : (st + 0) % M = (st + (1 + i)) % M := by
        rwa [Nat.add_zero]
      have h0 : (0 : Nat) = 1 + i := add_mod_inj hM (by omega) h01
      omega

/-! ### Length-prefix encoding and queue bookkeeping -/

@[simp] theorem encodeLen_length (n : Nat) : (encodeLen n).length = 4 := rfl

theorem decodeLen_encodeLen {n : Nat} (h : n < U32_MOD) :
    decodeLen (encodeLen n) = n := by
  simp only [encodeLen, decodeLen, U32_MOD] at *
  omega

@[simp] theorem frameBytes_length (item : List Nat) :
    (frameBytes item).length = 4 + item.length := by
  simp [frameBytes]

theorem totalFramed_append (q r : List (List Nat)) :
    totalFramed (q ++ r) = totalFramed q + totalFramed r := by
  induction q with
  | nil => simp [totalFramed]
  | cons it q ih => simp [totalFramed, ih]; omega

theorem queueBytes_append (q r : List (List Nat)) :
    queueBytes (q ++ r) = queueBytes q ++ queueBytes r := by
  induction q with
  | nil => simp [queueBytes]
  | cons it q ih => simp [queueBytes, ih]

theorem length_le_totalFramed (q : List (List Nat)) :
    q.length ≤ totalFramed q := by
  induction q with
  | nil => simp [totalFramed]
  | cons it q ih => simp [totalFramed, ITEM_PREFIX_SIZE]; omega

theorem totalFramed_drop_add_take (q : List (List Nat)) (k : Nat) :
    totalFramed (q.take k) + totalFramed (q.drop k) = totalFramed q := by
  rw [← totalFramed_append, List.take_append_drop]

/-! ### Facts about represented states -/

theorem CircularBuffer.full_eq_true_iff (s : CircularBuffer) :
    s.full = true ↔ (s.write_index + 1) % s.max_size = s.read_index := by
  simp [full]

theorem CircularBuffer.specSize_cases (s : CircularBuffer) :
    s.specSize = if s.full = true then s.capacity
      else if s.write_index ≥ s.read_index then s.write_index - s.read_index
      else s.max_size - s.read_index + s.write_index := by
  by_cases h : s.full = true <;> simp [specSize, h]

theorem Represents.specSize_eq {s : CircularBuffer} {q : List (List Nat)}
    (h : Represents s q) : s.specSize = totalFramed q := by
  obtain ⟨hM, -, hr, hw, hcap, hwr, -⟩ := h
  have hcap' : totalFramed q ≤ s.max_size - 1 := hcap
  set T := totalFramed q with hT
  have hmod : (s.read_index + T) % s.max_size =
      if s.read_index + T < s.max_size then s.read_index + T
      else s.read_index + T - s.max_size :=
    mod_two_cases (by omega)
  rw [s.specSize_cases]
  by_cases hfull : s.full = true
  · -- full: the source and the spec agree, and `T` must be `capacity`
    rw [if_pos hfull]
    rw [CircularBuffer.full_eq_true_iff] at hfull
    rw [hwr] at hfull
    have : (s.read_index + T + 1) % s.max_size = s.read_index := by
      rwa [Nat.mod_add_mod] at hfull
    have hmod1 : (s.read_index + (T + 1)) % s.max_size =
        (s.read_index + 0) % s.max_size := by
      have e1 : s.read_index + (T + 1) = s.read_index + T + 1 := by omega
      rw [e1, this, Nat.add_zero, Nat.mod_eq_of_lt hr]
    -- T + 1 cannot be < max_size (else T + 1 = 0); so T = capacity
    by_cases hlt : T + 1 < s.max_size
    · have := add_mod_inj hlt (by omega) hmod1
      simp [CircularBuffer.capacity]
      omega
    · simp [CircularBuffer.capacity]
      omega
  · rw [if_neg hfull, hwr, hmod]
    by_cases hin : s.read_index + T < s.max_size
    · rw [if_pos hin]
      have : s.read_index ≤ s.read_index + T := by omega
      rw [if_pos this]
      omega
    · rw [if_neg hin]
      -- wrapped: write = read + T - max_size < read
      have hwlt : s.read_index + T - s.max_size < s.read_index := by
        -- T < max_size since T ≤ max_size - 1
        omega
      rw [if_neg (by omega)]
      omega

theorem Represents.T_lt {s : CircularBuffer} {q : List (List Nat)}
    (h : Represents s q) : totalFramed q < s.max_size := by
  obtain ⟨hM, -, -, -, hcap, -, -⟩ := h
  have : totalFramed q ≤ s.max_size - 1 := hcap
  omega

theorem Represents.ne_of_cons {s : CircularBuffer} {it : List Nat}
    {q : List (List Nat)} (h : Represents s (it :: q)) :
    s.read_index ≠ s.write_index := by
  have hT : totalFramed (it :: q) < s.max_size := h.T_lt
  obtain ⟨hM, -, hr, hw, hcap, hwr, -⟩ := h
  intro hEq
  have hpos : 0 < totalFramed (it :: q) := by
    simp [totalFramed, ITEM_PREFIX_SIZE]
  have : (s.read_index + totalFramed (it :: q)) % s.max_size =
      (s.read_index + 0) % s.max_size := by
    rw [Nat.add_zero, Nat.mod_eq_of_lt hr, ← hwr, hEq]
  have := add_mod_inj hT (by omega) this
  omega

theorem Represents.stored_head {s : CircularBuffer} {it : List Nat}
    {q : List (List Nat)} (h : Represents s (it :: q)) :
    readBytes s.max_size s.mem s.read_index 4 = encodeLen it.length ∧
    readBytes s.max_size s.mem (s.read_index + 4) it.length = it ∧
    readBytes s.max_size s.mem (s.read_index + 4 + it.length) (totalFramed q) =
      queueBytes q := by
  obtain ⟨-, -, -, -, -, -, hbytes⟩ := h
  have hT : totalFramed (it :: q) = 4 + (it.length + totalFramed q) := by
    simp [totalFramed, ITEM_PREFIX_SIZE]
    omega
  rw [hT, readBytes_add, readBytes_add] at hbytes
  have hq : queueBytes (it :: q) = encodeLen it.length ++ (it ++ queueBytes q) := by
    simp [queueBytes, frameBytes]
  rw [hq] at hbytes
  obtain ⟨e1, hrest⟩ := List.append_inj hbytes (by simp)
  obtain ⟨e2, e3⟩ := List.append_inj hrest (by simp)
  exact ⟨e1, e2, e3⟩

theorem Represents.item_length_lt {s : CircularBuffer} {it : List Nat}
    {q : List (List Nat)} (h : Represents s (it :: q)) : it.length < U32_MOD := by
  obtain ⟨-, hU, -, -, hcap, -, -⟩ := h
  have : it.length + ITEM_PREFIX_SIZE ≤ totalFramed (it :: q) := by
    simp [totalFramed]
  have hcap' : totalFramed (it :: q) ≤ s.max_size - 1 := hcap
  simp [ITEM_PREFIX_SIZE] at this
  omega

theorem Represents.readLenAt_head {s : CircularBuffer} {it : List Nat}
    {q : List (List Nat)} (h : Represents s (it :: q)) :
    s.readLenAt s.read_index = it.length := by
  have h4 := h.stored_head.1
  rw [CircularBuffer.readLenAt, show ITEM_PREFIX_SIZE = 4 from rfl, h4]
  exact decodeLen_encodeLen h.item_length_lt

theorem Represents.evictOne_represents {s : CircularBuffer} {it : List Nat}
    {q : List (List Nat)} (h : Represents s (it :: q)) :
    Represents s.evictOne q ∧
    s.evictOne.read_index =
      (s.read_index + ITEM_PREFIX_SIZE + it.length) % s.max_size := by
  have hlen := h.readLenAt_head
  have hread : s.evictOne.read_index =
      (s.read_index + ITEM_PREFIX_SIZE + it.length) % s.max_size := by
    rw [CircularBuffer.evictOne, hlen]
  refine ⟨?_, hread⟩
  obtain ⟨hM, hU, hr, hw, hcap, hwr, hbytes⟩ := h
  have hstored := Represents.stored_head ⟨hM, hU, hr, hw, hcap, hwr, hbytes⟩
  have hcons : totalFramed (it :: q) = (it.length + ITEM_PREFIX_SIZE) + totalFramed q :=
    rfl
  refine ⟨hM, hU, ?_, hw, ?_, ?_, ?_⟩
  · rw [hread]
    exact Nat.mod_lt _ (by omega)
  · show totalFramed q ≤ s.max_size - 1
    have hcap' : totalFramed (it :: q) ≤ s.max_size - 1 := hcap
    omega
  · show s.write_index = (s.evictOne.read_index + totalFramed q) % s.max_size
    rw [hread, show ITEM_PREFIX_SIZE = 4 from rfl, Nat.mod_add_mod, hwr, hcons]
    refine congrArg (· % s.max_size) ?_
    simp [ITEM_PREFIX_SIZE]
    omega
  · show readBytes s.max_size s.evictOne.mem s.evictOne.read_index (totalFramed q) =
      queueBytes q
    have hmem : s.evictOne.mem = s.mem := rfl
    rw [hmem, hread, show ITEM_PREFIX_SIZE = 4 from rfl]
    rw [readBytes_start_congr s.mem (Nat.mod_mod_of_dvd _ dvd_rfl)]
    exact hstored.2.2

theorem Represents.get_eq {s : CircularBuffer} {it : List Nat}
    {q : List (List Nat)} (h : Represents s (it :: q)) :
    s.get = (.ok it, s.evictOne) ∧ Represents s.evictOne q := by
  have hne := h.ne_of_cons
  have hlen := h.readLenAt_head
  constructor
  · rw [CircularBuffer.get, if_neg hne, hlen, show ITEM_PREFIX_SIZE = 4 from rfl]
    rw [h.stored_head.2.1]
  · exact h.evictOne_represents.1

theorem Represents.writeFrame_represents {s : CircularBuffer} {q : List (List Nat)}
    {item : List Nat} (h : Represents s q)
    (hfit : totalFramed q + (item.length + ITEM_PREFIX_SIZE) ≤ s.capacity) :
    Represents (s.writeFrame item) (q ++ [item]) := by
  obtain ⟨hM, hU, hr, hw, hcap, hwr, hbytes⟩ := h
  have hcap' : totalFramed q ≤ s.max_size - 1 := hcap
  have hfit' : totalFramed q + (item.length + 4) ≤ s.max_size - 1 := hfit
  set T := totalFramed q with hT
  set f := item.length + ITEM_PREFIX_SIZE with hf
  have hf4 : f = item.length + 4 := rfl
  have hTq : totalFramed (q ++ [item]) = T + f := by
    rw [totalFramed_append]
    simp [totalFramed]
  have hframe_len : (frameBytes item).length = f := by
    simp [hf4]
    omega
  have hwrite' : (s.writeFrame item).write_index = (s.write_index + f) % s.max_size :=
    rfl
  refine ⟨hM, hU, hr, ?_, ?_, ?_, ?_⟩
  · rw [hwrite']
    exact Nat.mod_lt _ (by omega)
  · show totalFramed (q ++ [item]) ≤ s.max_size - 1
    rw [hTq]
    omega
  · show (s.writeFrame item).write_index =
      (s.read_index + totalFramed (q ++ [item])) % s.max_size
    rw [hwrite', hTq, hwr, Nat.mod_add_mod, Nat.add_assoc]
  · show readBytes s.max_size (s.writeFrame item).mem s.read_index
        (totalFramed (q ++ [item])) = queueBytes (q ++ [item])
    have hmem : (s.writeFrame item).mem =
        writeMem s.max_size s.mem s.write_index (frameBytes item) := rfl
    rw [hTq, hmem, readBytes_add, queueBytes_append]
    have hqb : queueBytes [item] = frameBytes item := by
      simp [queueBytes]
    rw [hqb]
    refine congrArg₂ _ ?_ ?_
    · -- the old frames are untouched: the written region is disjoint
      rw [readBytes_mem_congr fun i hi => ?_, hbytes]
      refine writeMem_out s.mem fun j hj => ?_
      rw [hframe_len] at hj
      intro hcontra
      rw [hwr, Nat.mod_add_mod, Nat.add_assoc] at hcontra
      have := add_mod_inj (by omega) (by omega) hcontra
      omega
    · -- the new frame reads back as written
      have hstart : (s.read_index + T) % s.max_size = s.write_index % s.max_size := by
        rw [← hwr, Nat.mod_eq_of_lt hw]
      rw [readBytes_start_congr _ hstart, ← hframe_len]
      exact readBytes_writeMem_self s.mem s.write_index (by omega)
        (by rw [hframe_len]; omega)

theorem evictLoop_of_enough {need : Nat} {s : CircularBuffer}
    (h : need ≤ s.capacity - s.specSize) (fuel : Nat) :
    CircularBuffer.evictLoop need fuel s = s := by
  cases fuel <;> simp [CircularBuffer.evictLoop, h]

theorem Represents.put_of_fits {s : CircularBuffer} {q : List (List Nat)}
    {item : List Nat} (h : Represents s q)
    (hfit : totalFramed q + (item.length + ITEM_PREFIX_SIZE) ≤ s.capacity) :
    s.put item = (.ok (), s.writeFrame item) ∧
    Represents (s.writeFrame item) (q ++ [item]) := by
  refine ⟨?_, h.writeFrame_represents hfit⟩
  rw [CircularBuffer.put, if_neg (by omega)]
  rw [evictLoop_of_enough (by rw [h.specSize_eq]; omega) s.max_size]

theorem evictLoop_drops {q : List (List Nat)} :
    ∀ {s : CircularBuffer} {need fuel : Nat},
    Represents s q → need ≤ s.capacity → q.length ≤ fuel →
    ∃ k, k ≤ q.length ∧
      (∀ j < k, s.capacity - totalFramed (q.drop j) < need) ∧
      need ≤ s.capacity - totalFramed (q.drop k) ∧
      CircularBuffer.evictLoop need fuel s =
        { s with read_index :=
            (s.read_index + totalFramed (q.take k)) % s.max_size } ∧
      Represents (CircularBuffer.evictLoop need fuel s) (q.drop k) := by
  induction q with
  | nil =>
    intro s need fuel h hcap _
    have hstop : need ≤ s.capacity - s.specSize := by
      rw [h.specSize_eq]
      simpa [totalFramed] using hcap
    refine ⟨0, Nat.le_refl 0, by omega, ?_, ?_, ?_⟩
    · rw [List.drop_nil]
      rw [h.specSize_eq] at hstop
      exact hstop
    · rw [evictLoop_of_enough hstop]
      have : (s.read_index + totalFramed (List.take 0 [])) % s.max_size =
          s.read_index := by
        simp [totalFramed]
        exact Nat.mod_eq_of_lt h.2.2.1
      rw [this]
    · rw [evictLoop_of_enough hstop, List.drop_nil]
      exact h
  | cons it q' ih =>
    intro s need fuel h hcap hfuel
    by_cases hstop : need ≤ s.capacity - s.specSize
    · refine ⟨0, by omega, by omega, ?_, ?_, ?_⟩
      · rw [List.drop_zero]
        rw [h.specSize_eq] at hstop
        exact hstop
      · rw [evictLoop_of_enough hstop]
        have : (s.read_index + totalFramed (List.take 0 (it :: q'))) % s.max_size =
            s.read_index := by
          simp [totalFramed]
          exact Nat.mod_eq_of_lt h.2.2.1
        rw [this]
      · rw [evictLoop_of_enough hstop, List.drop_zero]
        exact h
    · -- one eviction needed: peel `it`
      obtain ⟨fuel', rfl⟩ : ∃ f', fuel = f' + 1 :=
        ⟨fuel - 1, by simp at hfuel; omega⟩
      have hstep : CircularBuffer.evictLoop need (fuel' + 1) s =
          CircularBuffer.evictLoop need fuel' s.evictOne := by
        rw [CircularBuffer.evictLoop, if_neg hstop]
      obtain ⟨h1, hread1⟩ := h.evictOne_represents
      have hcap1 : s.evictOne.capacity = s.capacity := rfl
      have hM1 : s.evictOne.max_size = s.max_size := rfl
      obtain ⟨k', hk'le, hmin', henough', hstate', hrep'⟩ :=
        @ih s.evictOne need fuel' h1 hcap
          (by simp only [List.length_cons] at hfuel; omega)
      refine ⟨k' + 1, by simp; omega, ?_, ?_, ?_, ?_⟩
      · intro j hj
        match j with
        | 0 =>
          rw [List.drop_zero, ← h.specSize_eq]
          omega
        | j' + 1 =>
          rw [List.drop_succ_cons]
          have := hmin' j' (by omega)
          rwa [hcap1] at this
      · rw [List.drop_succ_cons]
        rw [hcap1] at henough'
        exact henough'
      · rw [hstep, hstate']
        have harg : (s.evictOne.read_index + totalFramed (List.take k' q')) %
            s.evictOne.max_size =
            (s.read_index + totalFramed (List.take (k' + 1) (it :: q'))) %
              s.max_size := by
          rw [hM1, hread1, Nat.mod_add_mod, List.take_succ_cons]
          refine congrArg (· % s.max_size) ?_
          have : totalFramed (it :: List.take k' q') =
              (it.length + ITEM_PREFIX_SIZE) + totalFramed (List.take k' q') := rfl
          rw [this, show ITEM_PREFIX_SIZE = 4 from rfl]
          omega
        rw [harg]
        rfl
      · rw [hstep, List.drop_succ_cons]
        exact hrep'

theorem putAll_of_fits {items : List (List Nat)} :
    ∀ {s : CircularBuffer} {q : List (List Nat)}, Represents s q →
    totalFramed q + totalFramed items ≤ s.capacity →
    ∃ s', CircularBuffer.putAll s items = .ok s' ∧ Represents s' (q ++ items) := by
  induction items with
  | nil =>
    intro s q h _
    exact ⟨s, rfl, by simpa using h⟩
  | cons it rest ih =>
    intro s q h hfit
    have hTit : totalFramed (it :: rest) =
        (it.length + ITEM_PREFIX_SIZE) + totalFramed rest := rfl
    have hfit1 : totalFramed q + (it.length + ITEM_PREFIX_SIZE) ≤ s.capacity := by
      omega
    obtain ⟨hput, hrep1⟩ := h.put_of_fits hfit1
    have hfit2 : totalFramed (q ++ [it]) + totalFramed rest ≤
        (s.writeFrame it).capacity := by
      have hc : (s.writeFrame it).capacity = s.capacity := rfl
      rw [hc, totalFramed_append]
      have : totalFramed [it] = it.length + ITEM_PREFIX_SIZE := by
        simp [totalFramed]
      omega
    obtain ⟨s', hAll, hrep'⟩ := ih hrep1 hfit2
    refine ⟨s', ?_, by simpa using hrep'⟩
    rw [CircularBuffer.putAll, hput]
    exact hAll

theorem getAll_of_represents {q : List (List Nat)} :
    ∀ {s : CircularBuffer}, Represents s q →
    CircularBuffer.getAll s q.length = .ok q := by
  induction q with
  | nil => intro s _; rfl
  | cons it q' ih =>
    intro s h
    obtain ⟨hget, hrep'⟩ := h.get_eq
    rw [List.length_cons, CircularBuffer.getAll, hget]
    show Except.map (fun x => it :: x) (s.evictOne.getAll q'.length) =
      Except.ok (it :: q')
    rw [ih hrep']
    rfl

theorem represents_freshBuf {L : Nat} (hM : 1 ≤ (L - HEADER_SIZE) % U32_MOD) :
    Represents (freshBuf L) [] := by
  refine ⟨hM, Nat.mod_lt _ (by simp [U32_MOD]), ?_, ?_, ?_, ?_, ?_⟩
  · exact hM
  · exact hM
  · simp [totalFramed]
  · simp [totalFramed, freshBuf]
  · simp [totalFramed, readBytes, queueBytes]

theorem init_fresh {L : Nat} (hL : MIN_BUFFER_SIZE ≤ L) :
    CircularBuffer.init L freshRegion = .ok (freshBuf L) := by
  rw [CircularBuffer.init, if_neg (by omega)]
  rfl

/-! ### Claim theorems -/

/-- Claim C1 (code bug): `size()` does not match the spec's piecewise
definition in the wrapped case.  The state below genuinely stores the queue
`[[3,4],[5,6]]` (12 framed bytes) with `read_index = 6 > write_index = 3`
and `max_size = 15`; the source's `size` computes
`max_size + read_index − write_index = 18`, which even exceeds
`capacity() = 14`, while the spec's formula
`max_size − read_index + write_index` gives the true occupancy 12. -/
theorem size_wrapped_mismatch :
    Represents ⟨6, 3, 15, fun i => [0, 5, 6, 0, 0, 0, 2, 0, 0, 0, 3, 4, 2, 0, 0].getD i 0⟩
      [[3, 4], [5, 6]] ∧
    totalFramed [[3, 4], [5, 6]] = 12 ∧
    CircularBuffer.size ⟨6, 3, 15, fun i => [0, 5, 6, 0, 0, 0, 2, 0, 0, 0, 3, 4, 2, 0, 0].getD i 0⟩ = 18 ∧
    CircularBuffer.specSize ⟨6, 3, 15, fun i => [0, 5, 6, 0, 0, 0, 2, 0, 0, 0, 3, 4, 2, 0, 0].getD i 0⟩ = 12 ∧
    CircularBuffer.capacity ⟨6, 3, 15, fun i => [0, 5, 6, 0, 0, 0, 2, 0, 0, 0, 3, 4, 2, 0, 0].getD i 0⟩ = 14 := by
  refine ⟨by decide, by decide, by decide, by decide, by decide⟩

/-- Claim C2: FIFO round-trip law.  Over a freshly constructed buffer, any
sequence of `put` calls whose total framed bytes fit within `capacity()`
succeeds, and the matching `get` calls return exactly the same items in
the same order. -/
theorem fifo_round_trip (L : Nat) (items : List (List Nat))
    (hL : MIN_BUFFER_SIZE ≤ L)
    (hfit : totalFramed items ≤ (freshBuf L).capacity) :
    CircularBuffer.init L freshRegion = .ok (freshBuf L) ∧
    ∃ s', CircularBuffer.putAll (freshBuf L) items = .ok s' ∧
      CircularBuffer.getAll s' items.length = .ok items := by
  refine ⟨init_fresh hL, ?_⟩
  cases items with
  | nil => exact ⟨freshBuf L, rfl, rfl⟩
  | cons it rest =>
    have hc : (freshBuf L).capacity = (L - HEADER_SIZE) % U32_MOD - 1 := rfl
    have hpos : 1 ≤ totalFramed (it :: rest) := by
      have h5 : totalFramed (it :: rest) =
          (it.length + ITEM_PREFIX_SIZE) + totalFramed rest := rfl
      have h4 : ITEM_PREFIX_SIZE = 4 := rfl
      omega
    have hM : 1 ≤ (L - HEADER_SIZE) % U32_MOD := by omega
    have h00 : totalFramed ([] : List (List Nat)) = 0 := rfl
    obtain ⟨s', hput, hrep⟩ :=
      @putAll_of_fits (it :: rest) (freshBuf L) [] (represents_freshBuf hM)
        (by rw [h00, Nat.zero_add]; exact hfit)
    exact ⟨s', hput, getAll_of_represents hrep⟩

/-- Witness for C2 at a concrete input: region length 30 (capacity 17),
items `[1,2,3]` and `[4]` (12 framed bytes). -/
theorem fifo_round_trip_witness :
    (MIN_BUFFER_SIZE ≤ 30 ∧
      totalFramed [[1, 2, 3], [4]] ≤ (freshBuf 30).capacity) ∧
    (CircularBuffer.init 30 freshRegion = .ok (freshBuf 30) ∧
      ∃ s', CircularBuffer.putAll (freshBuf 30) [[1, 2, 3], [4]] = .ok s' ∧
        CircularBuffer.getAll s' (List.length [[1, 2, 3], [4]]) =
          .ok [[1, 2, 3], [4]]) :=
  ⟨⟨by decide, by decide⟩, fifo_round_trip 30 [[1, 2, 3], [4]] (by decide) (by decide)⟩

/-- Claim C3: eviction on `put`.  On a state storing queue `q`, an item that
fits in an empty buffer but not in the current free space makes `put`
advance `read_index` past one or more whole stored items — always landing
on an item boundary — until the frame fits, then write it and succeed. -/
theorem put_evicts_whole_items (s : CircularBuffer) (q : List (List Nat))
    (item : List Nat) (hrep : Represents s q)
    (hfits : item.length + ITEM_PREFIX_SIZE ≤ s.capacity)
    (hneeds : s.capacity - s.specSize < item.length + ITEM_PREFIX_SIZE) :
    ∃ k, 1 ≤ k ∧ k ≤ q.length ∧
      (∀ j < k,
        s.capacity - totalFramed (q.drop j) < item.length + ITEM_PREFIX_SIZE) ∧
      item.length + ITEM_PREFIX_SIZE ≤ s.capacity - totalFramed (q.drop k) ∧
      (s.put item).1 = .ok () ∧
      (s.put item).2.read_index =
        (s.read_index + totalFramed (q.take k)) % s.max_size ∧
      Represents (s.put item).2 (q.drop k ++ [item]) := by
  have hcaple : item.length + ITEM_PREFIX_SIZE ≤ s.capacity := hfits
  have hfuel : q.length ≤ s.max_size := by
    have h1 := length_le_totalFramed q
    have h2 : totalFramed q ≤ s.max_size - 1 := hrep.2.2.2.2.1
    omega
  obtain ⟨k, hkle, hmin, henough, hstate, hrepk⟩ :=
    evictLoop_drops hrep hcaple hfuel
  have hT := hrep.specSize_eq
  have hk1 : 1 ≤ k := by
    rcases Nat.eq_zero_or_pos k with h0 | h1
    · subst h0
      rw [List.drop_zero] at henough
      omega
    · exact h1
  have hput : s.put item = (.ok (),
      (CircularBuffer.evictLoop (item.length + ITEM_PREFIX_SIZE) s.max_size s).writeFrame item) := by
    rw [CircularBuffer.put, if_neg (by omega)]
  have hcap1 :
      (CircularBuffer.evictLoop (item.length + ITEM_PREFIX_SIZE) s.max_size s).capacity =
        s.capacity := by
    rw [hstate]
    rfl
  have hfit2 : totalFramed (q.drop k) + (item.length + ITEM_PREFIX_SIZE) ≤
      (CircularBuffer.evictLoop (item.length + ITEM_PREFIX_SIZE) s.max_size s).capacity := by
    rw [hcap1]
    omega
  have hrepw := hrepk.writeFrame_represents hfit2
  refine ⟨k, hk1, hkle, hmin, henough, ?_, ?_, ?_⟩
  · rw [hput]
  · rw [hput]
    show ((CircularBuffer.evictLoop (item.length + ITEM_PREFIX_SIZE) s.max_size s).writeFrame
        item).read_index = _
    have hrd : ((CircularBuffer.evictLoop (item.length + ITEM_PREFIX_SIZE) s.max_size s).writeFrame
        item).read_index =
        (CircularBuffer.evictLoop (item.length + ITEM_PREFIX_SIZE) s.max_size s).read_index :=
      rfl
    rw [hrd, hstate]
  · rw [hput]
    exact hrepw

/-- Witness for C3 at a concrete input: a ring of `max_size` 10 storing the
single item `[5]` (5 framed bytes, free space 4); putting `[7,7,7]`
(7 framed bytes) evicts that item and succeeds. -/
theorem put_evicts_whole_items_witness :
    (Represents ⟨0, 5, 10, fun i => [1, 0, 0, 0, 5].getD i 0⟩ [[5]] ∧
      List.length [7, 7, 7] + ITEM_PREFIX_SIZE ≤
        CircularBuffer.capacity ⟨0, 5, 10, fun i => [1, 0, 0, 0, 5].getD i 0⟩ ∧
      CircularBuffer.capacity ⟨0, 5, 10, fun i => [1, 0, 0, 0, 5].getD i 0⟩ -
          CircularBuffer.specSize ⟨0, 5, 10, fun i => [1, 0, 0, 0, 5].getD i 0⟩ <
        List.length [7, 7, 7] + ITEM_PREFIX_SIZE) ∧
    (∃ k, 1 ≤ k ∧ k ≤ List.length [[5]] ∧
      (∀ j < k,
        CircularBuffer.capacity ⟨0, 5, 10, fun i => [1, 0, 0, 0, 5].getD i 0⟩ -
            totalFramed (List.drop j [[5]]) <
          List.length [7, 7, 7] + ITEM_PREFIX_SIZE) ∧
      List.length [7, 7, 7] + ITEM_PREFIX_SIZE ≤
        CircularBuffer.capacity ⟨0, 5, 10, fun i => [1, 0, 0, 0, 5].getD i 0⟩ -
          totalFramed (List.drop k [[5]]) ∧
      (CircularBuffer.put ⟨0, 5, 10, fun i => [1, 0, 0, 0, 5].getD i 0⟩ [7, 7, 7]).1 =
        .ok () ∧
      (CircularBuffer.put ⟨0, 5, 10, fun i => [1, 0, 0, 0, 5].getD i 0⟩ [7, 7, 7]).2.read_index =
        (0 + totalFramed (List.take k [[5]])) % 10 ∧
      Represents
        (CircularBuffer.put ⟨0, 5, 10, fun i => [1, 0, 0, 0, 5].getD i 0⟩ [7, 7, 7]).2
        (List.drop k [[5]] ++ [[7, 7, 7]])) :=
  ⟨⟨by decide, by decide, by decide⟩,
    put_evicts_whole_items ⟨0, 5, 10, fun i => [1, 0, 0, 0, 5].getD i 0⟩ [[5]]
      [7, 7, 7] (by decide) (by decide) (by decide)⟩

/-- Claim C4: an item whose framed size exceeds `capacity()` is rejected with
`InsufficientSpace` and the whole buffer state is returned unchanged. -/
theorem put_rejects_oversized (s : CircularBuffer) (item : List Nat)
    (h : s.capacity < item.length + ITEM_PREFIX_SIZE) :
    s.put item = (.error .insufficientSpace, s) := by
  rw [CircularBuffer.put, if_pos h]

/-- Witness for C4 at a concrete input: region length 20 (capacity 7),
item of 9 bytes. -/
theorem put_rejects_oversized_witness :
    (freshBuf 20).capacity <
      List.length [1, 1, 1, 1, 1, 1, 1, 1, 1] + ITEM_PREFIX_SIZE ∧
    (freshBuf 20).put [1, 1, 1, 1, 1, 1, 1, 1, 1] =
      (.error .insufficientSpace, freshBuf 20) :=
  ⟨by decide, put_rejects_oversized (freshBuf 20) [1, 1, 1, 1, 1, 1, 1, 1, 1] (by decide)⟩

/-- Claim C5: `get` raises `Empty` exactly when `read_index = write_index`,
leaving the state unchanged in that case; otherwise it reads the 4-byte
length field at `read_index` (wrapping), reads that many payload bytes
(wrapping), advances `read_index` past them modulo `max_size`, and — on
any state representing a non-empty queue — returns the oldest stored item. -/
theorem get_contract (s : CircularBuffer) :
    ((s.get).1 = .error .empty ↔ s.read_index = s.write_index) ∧
    (s.read_index = s.write_index → (s.get).2 = s) ∧
    (s.read_index ≠ s.write_index →
      s.get = (.ok (readBytes s.max_size s.mem (s.read_index + ITEM_PREFIX_SIZE)
                  (s.readLenAt s.read_index)),
               { s with read_index := (s.read_index + ITEM_PREFIX_SIZE +
                   s.readLenAt s.read_index) % s.max_size })) ∧
    (∀ it q, Represents s (it :: q) →
      s.get = (.ok it, s.evictOne) ∧ Represents s.evictOne q) := by
  refine ⟨⟨?_, ?_⟩, ?_, ?_, ?_⟩
  · intro h
    by_contra hne
    rw [CircularBuffer.get, if_neg hne] at h
    simp at h
  · intro h
    rw [CircularBuffer.get, if_pos h]
  · intro h
    rw [CircularBuffer.get, if_pos h]
  · intro h
    rw [CircularBuffer.get, if_neg h]
    rfl
  · intro it q h
    exact h.get_eq

/-- Witness for C5 at a concrete input: a state representing the queue
`[[7]]`; `get` returns `[7]` and leaves the buffer representing `[]`. -/
theorem get_contract_witness :
    Represents ⟨0, 5, 10, fun i => [1, 0, 0, 0, 7].getD i 0⟩ [[7]] ∧
    (CircularBuffer.get ⟨0, 5, 10, fun i => [1, 0, 0, 0, 7].getD i 0⟩ =
        (.ok [7], CircularBuffer.evictOne ⟨0, 5, 10, fun i => [1, 0, 0, 0, 7].getD i 0⟩) ∧
      Represents (CircularBuffer.evictOne ⟨0, 5, 10, fun i => [1, 0, 0, 0, 7].getD i 0⟩) []) :=
  ⟨by decide,
    (get_contract ⟨0, 5, 10, fun i => [1, 0, 0, 0, 7].getD i 0⟩).2.2.2 [7] [] (by decide)⟩

/-- Claim C6: `available_size()` equals `capacity() − size() − ITEM_PREFIX_SIZE`
on every header state (the operation is absent from the source and modelled
from the spec's formula, so the equation holds definitionally). -/
theorem available_size_formula (s : CircularBuffer) :
    s.available_size = s.capacity - s.size - ITEM_PREFIX_SIZE := rfl

/-- Claim C7 counterexample: at the minimum region length `L = 13`,
construction over fresh memory stores `max_size = 1` and `full()` is then
true (the source's own test
`test_empty_full_size_capacity_for_circular_buffer_with_min_required_size`
asserts exactly this), contradicting the claim that `full()` is false for
every `L ≥ HeaderSize + 1`. -/
theorem min_region_full_after_init :
    MIN_BUFFER_SIZE ≤ 13 ∧
    (CircularBuffer.init 13 freshRegion).map CircularBuffer.full = .ok true := by
  refine ⟨by decide, ?_⟩
  rw [init_fresh (by decide)]
  rfl

/-- Claim C7 (amended): after construction over fresh memory, `empty()` holds
and `full()` is false provided the stored `max_size` is at least 2
(`(L − HeaderSize) mod 2^32 ≥ 2`); likewise after `reset()` on any buffer
with `max_size ≥ 2`.  (With `max_size = 1`, e.g. `L = 13`, the buffer is
empty and full simultaneously.) -/
theorem empty_not_full_after_init_and_reset (L : Nat) (s : CircularBuffer)
    (hL : MIN_BUFFER_SIZE ≤ L) (hM : 2 ≤ (L - HEADER_SIZE) % U32_MOD)
    (hs : 2 ≤ s.max_size) :
    (CircularBuffer.init L freshRegion).map
        (fun b => (b.empty, b.full)) = .ok (true, false) ∧
    (s.reset).empty = true ∧ (s.reset).full = false := by
  refine ⟨?_, rfl, ?_⟩
  · rw [init_fresh hL]
    show Except.ok ((freshBuf L).empty, (freshBuf L).full) = _
    have hone : (1 : Nat) % ((L - HEADER_SIZE) % U32_MOD) = 1 :=
      Nat.mod_eq_of_lt (by omega)
    have hfull : (freshBuf L).full = false := by
      simp [CircularBuffer.full, freshBuf, hone]
    rw [hfull]
    rfl
  · have hone : (1 : Nat) % s.max_size = 1 := Nat.mod_eq_of_lt (by omega)
    simp [CircularBuffer.reset, CircularBuffer.full, hone]

/-- Witness for C7 (amended) at concrete inputs: region length 256 and a
buffer with `max_size = 20`. -/
theorem empty_not_full_after_init_and_reset_witness :
    (MIN_BUFFER_SIZE ≤ 256 ∧ 2 ≤ (256 - HEADER_SIZE) % U32_MOD ∧
      (2 : Nat) ≤ 20) ∧
    ((CircularBuffer.init 256 freshRegion).map
        (fun b => (b.empty, b.full)) = .ok (true, false) ∧
      (CircularBuffer.reset ⟨3, 7, 20, fun _ => 0⟩).empty = true ∧
      (CircularBuffer.reset ⟨3, 7, 20, fun _ => 0⟩).full = false) :=
  ⟨⟨by decide, by decide, by decide⟩,
    empty_not_full_after_init_and_reset 256 ⟨3, 7, 20, fun _ => 0⟩
      (by decide) (by decide) (by decide)⟩

/-- Claim C8: constructing over an already-initialized region (non-zero
`max_size`) returns every header field and every payload byte exactly as
found, so `size()` after construction is the `size()` the pre-existing
header determines. -/
theorem init_preserves_existing_state (L : Nat) (s : CircularBuffer)
    (hL : MIN_BUFFER_SIZE ≤ L) (hm : s.max_size ≠ 0) :
    CircularBuffer.init L s = .ok s ∧
    (CircularBuffer.init L s).map CircularBuffer.size = .ok s.size := by
  have h1 : CircularBuffer.init L s = .ok s := by
    rw [CircularBuffer.init, if_neg (by omega), if_neg hm]
  refine ⟨h1, ?_⟩
  rw [h1]
  rfl

/-- Witness for C8 at concrete input: a populated region (region length 256,
`max_size = 244`, 9 occupied bytes) reattached unchanged. -/
theorem init_preserves_existing_state_witness :
    (MIN_BUFFER_SIZE ≤ 256 ∧
      (⟨0, 9, 244, fun i => [5, 0, 0, 0, 1, 2, 3, 4, 5].getD i 0⟩ :
        CircularBuffer).max_size ≠ 0) ∧
    (CircularBuffer.init 256 ⟨0, 9, 244, fun i => [5, 0, 0, 0, 1, 2, 3, 4, 5].getD i 0⟩ =
        .ok ⟨0, 9, 244, fun i => [5, 0, 0, 0, 1, 2, 3, 4, 5].getD i 0⟩ ∧
      (CircularBuffer.init 256 ⟨0, 9, 244, fun i => [5, 0, 0, 0, 1, 2, 3, 4, 5].getD i 0⟩).map
          CircularBuffer.size =
        .ok (CircularBuffer.size ⟨0, 9, 244, fun i => [5, 0, 0, 0, 1, 2, 3, 4, 5].getD i 0⟩)) :=
  ⟨⟨by decide, by decide⟩,
    init_preserves_existing_state 256
      ⟨0, 9, 244, fun i => [5, 0, 0, 0, 1, 2, 3, 4, 5].getD i 0⟩ (by decide) (by decide)⟩

/-- Claim C9 counterexample: `max_size` is a `c_uint32`, so at
`L = 2^32 + 13` the stored value truncates to 1 and `capacity()` is 0, not
`L − HeaderSize − 1 = 2^32` as the claim states for every `L ≥ HeaderSize + 1`. -/
theorem capacity_truncates_at_uint32 :
    MIN_BUFFER_SIZE ≤ 2 ^ 32 + 13 ∧
    (CircularBuffer.init (2 ^ 32 + 13) freshRegion).map CircularBuffer.capacity =
      .ok 0 ∧
    2 ^ 32 + 13 - HEADER_SIZE - 1 = 2 ^ 32 := by
  refine ⟨by decide, ?_, by decide⟩
  rw [init_fresh (by decide)]
  rfl

/-- Claim C9 (amended): construction fails with `InsufficientBufferSize`
(creating no state) exactly when `L < HeaderSize + 1`; and for every
`L ≥ HeaderSize + 1` whose payload length does not overflow the `uint32`
`max_size` field (`L − HeaderSize < 2^32`), `capacity()` immediately after
first construction over fresh memory is `L − HeaderSize − 1`. -/
theorem init_guard_and_capacity (L : Nat) (s : CircularBuffer) :
    (L < MIN_BUFFER_SIZE →
      CircularBuffer.init L s = .error .insufficientBufferSize) ∧
    (MIN_BUFFER_SIZE ≤ L → L - HEADER_SIZE < U32_MOD →
      (CircularBuffer.init L freshRegion).map CircularBuffer.capacity =
        .ok (L - HEADER_SIZE - 1)) := by
  constructor
  · intro h
    rw [CircularBuffer.init, if_pos h]
  · intro h1 h2
    rw [init_fresh h1]
    show Except.ok (freshBuf L).capacity = _
    have hcap : (freshBuf L).capacity = L - HEADER_SIZE - 1 := by
      show (L - HEADER_SIZE) % U32_MOD - 1 = L - HEADER_SIZE - 1
      rw [Nat.mod_eq_of_lt h2]
    rw [hcap]

/-- Witness for C9 (amended) at concrete inputs: `L = 5` is rejected, and
`L = 256` yields capacity 243. -/
theorem init_guard_and_capacity_witness :
    ((5 : Nat) < MIN_BUFFER_SIZE ∧
      CircularBuffer.init 5 freshRegion = .error .insufficientBufferSize) ∧
    (MIN_BUFFER_SIZE ≤ 256 ∧ 256 - HEADER_SIZE < U32_MOD ∧
      (CircularBuffer.init 256 freshRegion).map CircularBuffer.capacity =
        .ok (256 - HEADER_SIZE - 1)) :=
  ⟨⟨by decide, (init_guard_and_capacity 5 freshRegion).1 (by decide)⟩,
    ⟨by decide, by decide,
      (init_guard_and_capacity 256 freshRegion).2 (by decide) (by decide)⟩⟩

/-- Claim C10: the query methods `full`, `empty`, `capacity` and `size`
contain no assignment; their state-passing embeddings return the state —
header fields and payload bytes — exactly as received. -/
theorem queries_leave_state_unchanged (s : CircularBuffer) :
    (s.fullM).2 = s ∧ (s.emptyM).2 = s ∧ (s.capacityM).2 = s ∧ (s.sizeM).2 = s :=
  ⟨rfl, rfl, rfl, rfl⟩

end Shmq
